import Mathlib

/-!
# Verification of the logcatcolor line renderer

Shallow embedding of the core of `logcatcolor.go`: the field extractor
(`findFieldIndices`), the timestamp parsing (`parseTimestamp`), the duration
rendering (`durationString`) and the stateful renderer (`printColoredLog`).

Modelling conventions:
* A Go string is modelled as a `List Char`; indices are character offsets
  (identical to Go byte offsets for single-byte characters, and the spec
  speaks of character offsets throughout).
* Go string slicing `s[a:b]` requires `0 ≤ a ≤ b ≤ len s` and otherwise
  panics at run time; it is modelled by `goSlice?` / `goSliceFrom?`, which
  return `none` exactly when the Go program would panic.  `printColoredLog`
  therefore returns `none` exactly when the Go code panics, and
  `some (output, (lastTag, lastTime, lastOther))` otherwise.
* `time.Time` values are modelled as `Int` nanoseconds counted from
  midnight, January 1 of year 0 (the year that `time.Parse` assigns when the
  layout has no year field; year 0 is a leap year in the proleptic Gregorian
  calendar used by Go).  The zero value `time.Time` set up by `main` is
  January 1 of year 1, i.e. `zeroTime` = 366 days, and `Time.Sub` is exact
  integer subtraction for this range.
* `Duration.Seconds()` comparison: the Go condition
  `delta.Seconds() < opts.MaxDelta.Seconds()` divides both nanosecond counts
  by the same constant 1e9 before a float64 comparison; it is modelled by
  the exact comparison of the nanosecond counts (division by a positive
  constant is monotone, and the claims state the condition in exactly the
  same terms as the code).
* ANSI color wrappers produced by `fatih/color` around the level, tag and
  message are pure presentation (and are disabled on non-terminal output);
  the emitted line is modelled structurally by `RenderOutput`, and
  `renderPlain` is the text of the line with the color escapes stripped.
-/

namespace Logcatcolor

/-- Model of the Go struct `LogcatOptions` (configuration for filtering
logcat output).  `maxDelta` is a duration in nanoseconds. -/
structure LogcatOptions where
  filters : List (List Char)
  tag : List Char
  level : List Char
  device : List Char
  maxDelta : Int
  keepGoing : Bool

/-- The option record produced by `parseArgs` when no flags are given:
`-delta` defaults to `10 * time.Second`. -/
def defaultOpts : LogcatOptions :=
  { filters := [], tag := [], level := [], device := [],
    maxDelta := 10000000000, keepGoing := false }

/-- One emitted line.  `passThrough` is `fmt.Println(line)`; `formatted`
carries the five `fmt.Printf("%s%s %s%s : %s\n", ...)` arguments
(metadata, level, tag, tagSpace, message) with their color escapes
stripped. -/
inductive RenderOutput where
  | passThrough : List Char → RenderOutput
  | formatted : List Char → List Char → List Char → List Char → List Char → RenderOutput
  deriving DecidableEq

/-- The plain text of an emitted line (color escapes stripped), following
the format string `"%s%s %s%s : %s"`. -/
def renderPlain : RenderOutput → List Char
  | .passThrough l => l
  | .formatted metadata level tag tagSpace message =>
      metadata ++ level ++ [' '] ++ tag ++ tagSpace ++ [' ', ':', ' '] ++ message

/-- Go string slice `s[a:b]`: defined when `a ≤ b ≤ len s`, a run-time
panic (modelled as `none`) otherwise. -/
def goSlice? (l : List Char) (a b : Nat) : Option (List Char) :=
  if a ≤ b ∧ b ≤ l.length then some ((l.take b).drop a) else none

/-- Go string slice `s[a:]`: defined when `a ≤ len s`, a run-time panic
(modelled as `none`) otherwise. -/
def goSliceFrom? (l : List Char) (a : Nat) : Option (List Char) :=
  if a ≤ l.length then some (l.drop a) else none

/-- The whitespace class used by Go `strings.TrimSpace` and
`strings.Fields` (`unicode.IsSpace`), restricted to the Latin-1 range;
space characters outside Latin-1 are not produced by the log format. -/
def isGoSpace (c : Char) : Bool :=
  c = ' ' || c = '\t' || c = '\n' || c = '\x0b' || c = '\x0c' || c = '\r' ||
  c = '\x85' || c = '\xa0'

/-- Right-trimming step of `strings.TrimSpace`: drop trailing characters
satisfying `isGoSpace`. -/
def trimRight : List Char → List Char
  | [] => []
  | c :: rest =>
      if trimRight rest = [] ∧ isGoSpace c then [] else c :: trimRight rest

/-- Go `strings.TrimSpace`: drop leading and trailing white space. -/
def trimSpace (s : List Char) : List Char :=
  trimRight (s.dropWhile isGoSpace)

/-- Go `strings.IndexRune(l, c)`: offset of the first occurrence of `c`
in `l`, `none` when absent (Go returns -1). -/
def indexOfChar : List Char → Char → Option Nat
  | [], _ => none
  | c :: rest, t => if c = t then some 0 else (indexOfChar rest t).map (· + 1)

/-- `fmt.Sprintf("%-*v", w, s)`: left-justify `s` in a field of minimum
width `w`, padding with spaces on the right. -/
def padRightTo (w : Nat) (s : List Char) : List Char :=
  s ++ List.replicate (w - s.length) ' '

/-- Membership test of the Go map `LogLevelColors` (keys V/D/I/W/E/F). -/
def levelRecognized (level : List Char) : Bool :=
  decide (level = ['V'] ∨ level = ['D'] ∨ level = ['I'] ∨ level = ['W'] ∨
          level = ['E'] ∨ level = ['F'])

/-! ## Field extractor (`findFieldIndices`) -/

/-- Loop of `findFieldIndices`: scan `line` from offset `i` with the
`inField` flag; `remaining` is `maxFields` minus the number of indices
already collected, and the Go loop breaks as soon as the count reaches
`maxFields` (checked after each append, hence the `remaining ≤ 1` test). -/
def findFieldIndicesAux : List Char → Nat → Bool → Nat → List Nat
  | [], _, _, _ => []
  | c :: rest, i, inField, remaining =>
      if c ≠ ' ' ∧ inField = false then
        if remaining ≤ 1 then [i]
        else i :: findFieldIndicesAux rest (i + 1) true (remaining - 1)
      else if c = ' ' then findFieldIndicesAux rest (i + 1) false remaining
      else findFieldIndicesAux rest (i + 1) inField remaining

/-- Model of Go `findFieldIndices`: indices of the first non-space
character of each field, up to `maxFields` fields. -/
def findFieldIndices (line : List Char) (maxFields : Nat) : List Nat :=
  findFieldIndicesAux line 0 false maxFields

/-- `findFieldIndicesAux` without the `maxFields` cutoff: all field start
offsets from position `i` on, given the `inField` flag. -/
def fieldStartsFrom : List Char → Nat → Bool → List Nat
  | [], _, _ => []
  | c :: rest, i, inField =>
      if c ≠ ' ' ∧ inField = false then i :: fieldStartsFrom rest (i + 1) true
      else fieldStartsFrom rest (i + 1) (c != ' ')

/-- Specification-level description (generalized by the flag `prevNonSpace`
standing for "the character before the list, if any, was not a space"):
the positions `i` that start a space-delimited token, i.e. `line[i]` is not
a space while the preceding character is (or `i` is the very beginning). -/
def tokenStartsFrom (line : List Char) (prevNonSpace : Bool) : List Nat :=
  (List.range line.length).filter fun i =>
    decide (line.getD i ' ' ≠ ' ' ∧
      (if i = 0 then prevNonSpace = false else line.getD (i - 1) ' ' = ' '))

/-- Specification-level description of the field extractor contract: the
starting character offsets of the space-delimited tokens of the line, in
left-to-right order. -/
def tokenStarts (line : List Char) : List Nat :=
  (List.range line.length).filter fun i =>
    decide (line.getD i ' ' ≠ ' ' ∧ (i = 0 ∨ line.getD (i - 1) ' ' = ' '))

/-! ## Timestamp parsing (`parseTimestamp`) -/

/-- One decimal digit (Go `'0' <= c && c <= '9'`). -/
def digit? (c : Char) : Option Nat :=
  if '0' ≤ c ∧ c ≤ '9' then some (c.toNat - '0'.toNat) else none

/-- Go `getnum(s, fixed=true)`: exactly two digits. -/
def num2 : List Char → Option (Nat × List Char)
  | c1 :: c2 :: rest => do
      let d1 ← digit? c1
      let d2 ← digit? c2
      pure (d1 * 10 + d2, rest)
  | _ => none

/-- Go `getnum(s, fixed=false)`: one digit, or two when the second
character is also a digit (used for the hour field `15`). -/
def num1or2 : List Char → Option (Nat × List Char)
  | [] => none
  | c1 :: rest =>
      match digit? c1 with
      | none => none
      | some d1 =>
          match rest with
          | c2 :: rest2 =>
              match digit? c2 with
              | some d2 => some (d1 * 10 + d2, rest2)
              | none => some (d1, rest)
          | [] => some (d1, [])

/-- Exactly three digits (the fractional part of the layout `.000`). -/
def num3 : List Char → Option (Nat × List Char)
  | c1 :: c2 :: c3 :: rest => do
      let d1 ← digit? c1
      let d2 ← digit? c2
      let d3 ← digit? c3
      pure (d1 * 100 + d2 * 10 + d3, rest)
  | _ => none

/-- A required literal separator character of the layout. -/
def expectChar (c : Char) : List Char → Option (List Char)
  | x :: rest => if x = c then some rest else none
  | [] => none

/-- Days in each month of year 0 (the year `time.Parse` assigns when the
layout carries no year; year 0 is a leap year, so February has 29 days). -/
def daysInMonthYear0 (m : Nat) : Nat :=
  match m with
  | 1 => 31 | 2 => 29 | 3 => 31 | 4 => 30 | 5 => 31 | 6 => 30
  | 7 => 31 | 8 => 31 | 9 => 30 | 10 => 31 | 11 => 30 | _ => 31

/-- Cumulative days before each month of (leap) year 0. -/
def daysBeforeMonthYear0 (m : Nat) : Nat :=
  match m with
  | 1 => 0 | 2 => 31 | 3 => 60 | 4 => 91 | 5 => 121 | 6 => 152
  | 7 => 182 | 8 => 213 | 9 => 244 | 10 => 274 | 11 => 305 | _ => 335

/-- Go `time.Parse("01-02 15:04:05.000", s)`: fixed two-digit month, day,
minute and second, one-or-two-digit hour, literal separators, exactly
three fractional digits, no text left over, and Go range validation
(month 1-12, day within the month for year 0, hour 0-23, minute and
second 0-59).  Result: nanoseconds since midnight January 1 of year 0. -/
def parseLayout (s : List Char) : Option Int := do
  let (mo, s1) ← num2 s
  let s2 ← expectChar '-' s1
  let (dy, s3) ← num2 s2
  let s4 ← expectChar ' ' s3
  let (hh, s5) ← num1or2 s4
  let s6 ← expectChar ':' s5
  let (mi, s7) ← num2 s6
  let s8 ← expectChar ':' s7
  let (ss, s9) ← num2 s8
  let s10 ← expectChar '.' s9
  let (ms, s11) ← num3 s10
  if s11 = [] ∧ 1 ≤ mo ∧ mo ≤ 12 ∧ 1 ≤ dy ∧ dy ≤ daysInMonthYear0 mo ∧
      hh ≤ 23 ∧ mi ≤ 59 ∧ ss ≤ 59 then
    some ((((((((daysBeforeMonthYear0 mo + (dy - 1)) * 24 + hh) * 60 + mi) * 60
      + ss) * 1000 + ms : Nat) : Int)) * 1000000)
  else
    none

/-- Loop of Go `strings.Fields`: split around maximal runs of white
space, producing the non-empty chunks. -/
def goFieldsAux : List Char → List Char → List (List Char)
  | [], cur => if cur = [] then [] else [cur.reverse]
  | c :: rest, cur =>
      if isGoSpace c then
        if cur = [] then goFieldsAux rest []
        else cur.reverse :: goFieldsAux rest []
      else goFieldsAux rest (c :: cur)

/-- Go `strings.Fields`. -/
def goFields (l : List Char) : List (List Char) := goFieldsAux l []

/-- Model of Go `parseTimestamp`: join the first two whitespace fields
with a single space and parse with layout `01-02 15:04:05.000`.  `none`
models the error return. -/
def parseTimestamp (line : List Char) : Option Int :=
  match goFields line with
  | p0 :: p1 :: _ => parseLayout (p0 ++ [' '] ++ p1)
  | _ => none

/-- The zero value `time.Time` (January 1 of year 1) in nanoseconds since
January 1 of year 0: 366 days (year 0 is a leap year). -/
def zeroTime : Int := 366 * 86400 * 1000000000

/-! ## Duration rendering (`time.Duration.String`) -/

/-- Decimal digit character. -/
def digitChar (n : Nat) : Char := Char.ofNat (48 + n)

/-- Decimal digits of `n`, most significant first (`fmtInt`); fuel-driven
recursion with `n + 1` steps, which always suffices. -/
def natDigitsAux : Nat → Nat → List Char → List Char
  | 0, _, acc => acc
  | fuel + 1, n, acc =>
      if n < 10 then digitChar n :: acc
      else natDigitsAux fuel (n / 10) (digitChar (n % 10) :: acc)

/-- Decimal rendering of a natural number (`fmtInt`; `0` renders as "0"). -/
def natDigits (n : Nat) : List Char := natDigitsAux (n + 1) n []

/-- Go `fmtFrac`: format the `prec` low decimal digits of `v` as a
fraction, omitting trailing zeros and the dot when all digits are zero;
returns the fraction text and `v` divided by `10 ^ prec`. -/
def fmtFracAux : Nat → Nat → Bool → List Char → (List Char × Nat)
  | 0, v, print, acc => (if print then '.' :: acc else acc, v)
  | p + 1, v, print, acc =>
      let d := v % 10
      let print2 := print || decide (d ≠ 0)
      let acc2 := if print2 then digitChar d :: acc else acc
      fmtFracAux p (v / 10) print2 acc2

/-- Entry point of `fmtFrac`. -/
def fmtFrac (v prec : Nat) : List Char × Nat := fmtFracAux prec v false []

/-- Go `time.Duration.String()` on a duration of `d` nanoseconds: unit
`ns`, `µs` or `ms` with up to `prec` fractional digits below one second,
and `h`/`m`/`s` with up to nine fractional digits otherwise; `0` renders
as "0s" and negative durations get a leading minus sign. -/
def durationString (d : Int) : List Char :=
  let u : Nat := d.natAbs
  let core : List Char :=
    if u < 1000000000 then
      if u = 0 then ['0', 's']
      else if u < 1000 then natDigits u ++ ['n', 's']
      else if u < 1000000 then
        let fr := fmtFrac u 3
        natDigits fr.2 ++ fr.1 ++ ['µ', 's']
      else
        let fr := fmtFrac u 6
        natDigits fr.2 ++ fr.1 ++ ['m', 's']
    else
      let fr := fmtFrac u 9
      let secs := natDigits (fr.2 % 60) ++ fr.1 ++ ['s']
      let u2 := fr.2 / 60
      if u2 = 0 then secs
      else
        let mins := natDigits (u2 % 60) ++ ['m'] ++ secs
        let u3 := u2 / 60
        if u3 = 0 then mins
        else natDigits u3 ++ ['h'] ++ mins
  if d < 0 then '-' :: core else core

/-! ## The stateful renderer (`printColoredLog`) -/

/-- Model of Go `printColoredLog`.  Input: the raw line and the running
state (`lastTag`, `lastTime`, `lastOther`) plus the options.  Output:
`none` when the Go code panics (a slice bound violation), otherwise the
emitted line and the returned `(tag, lastTime, lastOther)` triple. -/
def printColoredLog (line lastTag : List Char) (lastTime : Int)
    (lastOther : List Char) (opts : LogcatOptions) :
    Option (RenderOutput × (List Char × Int × List Char)) :=
  let parts := findFieldIndices line 6
  if parts.length < 6 then
    some (.passThrough line, (lastTag, lastTime, lastOther))
  else
    let levelIndex := parts.getD 4 0
    match goSlice? line levelIndex (levelIndex + 1) with
    | none => none
    | some level =>
      if levelRecognized level = false then
        some (.passThrough line, (lastTag, lastTime, lastOther))
      else
        let tagIndex := parts.getD 5 0
        match goSliceFrom? line tagIndex with
        | none => none
        | some tagTail =>
          match indexOfChar tagTail ':' with
          | none => some (.passThrough line, (lastTag, lastTime, lastOther))
          | some rel =>
            let colonIndex := rel + tagIndex
            match goSlice? line tagIndex colonIndex with
            | none => none
            | some tagRaw =>
              let tag := trimSpace tagRaw
              match goSlice? line (tagIndex + tag.length) colonIndex with
              | none => none
              | some tagSpace =>
                match parseTimestamp line with
                | none => some (.passThrough line, (lastTag, lastTime, lastOther))
                | some currentTime =>
                  match goSlice? line 0 (parts.getD 1 0),
                        goSlice? line (parts.getD 2 0) (parts.getD 4 0) with
                  | some o1, some o2 =>
                    let other := o1 ++ o2
                    let delta := currentTime - lastTime
                    let step :=
                      if lastTag = tag ∧ delta < opts.maxDelta then
                        (some (padRightTo levelIndex ('+' :: durationString delta)),
                         lastTime, lastOther)
                      else
                        (goSlice? line 0 levelIndex, currentTime, other)
                    match step.1, goSliceFrom? line (colonIndex + 2) with
                    | some metadata, some message =>
                      some (.formatted metadata level tag tagSpace message,
                            (tag, step.2.1, step.2.2))
                    | _, _ => none
                  | _, _ => none

/-! ## Concrete inputs used in witnesses and counterexamples -/

/-- A minimal well-formed threadtime line. -/
def sampleLine : List Char := "04-19 19:34:18.813 1 2 I a: m".toList

/-- A well-formed line whose final character is the colon ending the tag:
the message slice `line[colonIndex+2:]` is then out of bounds. -/
def colonEndLine : List Char := "04-19 19:34:18.813 1 2 I a:".toList

/-- A line whose tag field begins with a tab character (a tab is not a
field separator, but `strings.TrimSpace` removes it). -/
def tabTagLine : List Char := "04-19 19:34:18.813 1 2 I \tX: m".toList

/-- A line whose level character is not a recognized level code. -/
def badLevelLine : List Char := "04-19 19:34:18.813 1 2 X a: m".toList

/-- The example line of the specification. -/
def artdLine1 : List Char :=
  "04-19 19:34:18.813  5587  5708 I artd    : GetBestInfo no usable artifacts".toList

/-- The example line of the specification, one millisecond later. -/
def artdLine2 : List Char :=
  "04-19 19:34:18.814  5587  5708 I artd    : GetBestInfo no usable artifacts".toList

/-- Options that agree with `defaultOpts` on `maxDelta` and differ
everywhere else. -/
def altOpts : LogcatOptions :=
  { filters := ["GetBest".toList], tag := "artd".toList, level := "E".toList,
    device := "-e".toList, maxDelta := 10000000000, keepGoing := true }

/-! ## Theory of the field extractor -/

theorem tokenStartsFrom_nil (p : Bool) : tokenStartsFrom [] p = [] := rfl

theorem tokenStartsFrom_cons (c : Char) (rest : List Char) (p : Bool) :
    tokenStartsFrom (c :: rest) p =
      (if c ≠ ' ' ∧ p = false then [0] else []) ++
        (tokenStartsFrom rest (c != ' ')).map (· + 1) := by
  have hmap : (tokenStartsFrom rest (c != ' ')).map (· + 1) =
      ((List.range rest.length).map Nat.succ).filter fun i =>
        decide ((c :: rest).getD i ' ' ≠ ' ' ∧
          (if i = 0 then p = false else (c :: rest).getD (i - 1) ' ' = ' ')) := by
    rw [List.filter_map]
    unfold tokenStartsFrom
    have hfun : ∀ j ∈ List.range rest.length,
        (decide (rest.getD j ' ' ≠ ' ' ∧
          (if j = 0 then (c != ' ') = false else rest.getD (j - 1) ' ' = ' '))) =
        ((fun i => decide ((c :: rest).getD i ' ' ≠ ' ' ∧
          (if i = 0 then p = false else (c :: rest).getD (i - 1) ' ' = ' '))) ∘ Nat.succ) j := by
      intro j _
      cases j with
      | zero => simp [bne]
      | succ k => simp
    rw [List.filter_congr hfun]
  unfold tokenStartsFrom
  rw [List.length_cons, List.range_succ_eq_map, List.filter_cons, ← hmap]
  by_cases h : c ≠ ' ' ∧ p = false
  · have hd : decide ((c :: rest).getD 0 ' ' ≠ ' ' ∧
        (if (0 : Nat) = 0 then p = false else (c :: rest).getD (0 - 1) ' ' = ' ')) = true :=
      decide_eq_true (by simpa using h)
    rw [hd, if_pos h]
    rfl
  · have hd : decide ((c :: rest).getD 0 ' ' ≠ ' ' ∧
        (if (0 : Nat) = 0 then p = false else (c :: rest).getD (0 - 1) ' ' = ' ')) = false :=
      decide_eq_false (by simpa using h)
    rw [hd, if_neg h]
    rfl

theorem fieldStartsFrom_eq_map (line : List Char) :
    ∀ (i : Nat) (p : Bool),
      fieldStartsFrom line i p = (tokenStartsFrom line p).map (· + i) := by
  induction line with
  | nil => intro i p; rfl
  | cons c rest ih =>
      intro i p
      rw [tokenStartsFrom_cons, List.map_append, List.map_map]
      have hcomp : ((· + i) ∘ (· + 1) : Nat → Nat) = (· + (i + 1)) := by
        funext j
        simp [Nat.add_assoc, Nat.add_comm 1 i]
      rw [hcomp]
      unfold fieldStartsFrom
      by_cases h : c ≠ ' ' ∧ p = false
      · have hb : (c != ' ') = true := by
          simp [bne, h.1]
        rw [if_pos h, ih (i + 1) true, if_pos h, hb]
        simp
      · have hb : ∀ q : List Nat, (if c ≠ ' ' ∧ p = false then [0] else []).map (· + i) ++ q = q := by
          intro q; rw [if_neg h]; rfl
        rw [if_neg h, ih (i + 1) (c != ' '), hb]

theorem findFieldIndicesAux_eq_take (line : List Char) :
    ∀ (i : Nat) (p : Bool) (n : Nat), 1 ≤ n →
      findFieldIndicesAux line i p n = (fieldStartsFrom line i p).take n := by
  induction line with
  | nil =>
      intro i p n _
      simp [findFieldIndicesAux, fieldStartsFrom]
  | cons c rest ih =>
      intro i p n hn
      unfold findFieldIndicesAux fieldStartsFrom
      by_cases h : c ≠ ' ' ∧ p = false
      · simp only [if_pos h]
        by_cases h1 : n ≤ 1
        · have : n = 1 := Nat.le_antisymm h1 hn
          subst this
          simp
        · rw [if_neg h1, List.take_cons (by omega)]
          congr 1
          exact ih (i + 1) true (n - 1) (by omega)
      · simp only [if_neg h]
        by_cases h2 : c = ' '
        · rw [if_pos h2]
          have hb : (c != ' ') = false := by simp [bne, h2]
          rw [hb]
          exact ih (i + 1) false n hn
        · rw [if_neg h2]
          have hp : p = true := by
            rcases Bool.eq_false_or_eq_true p with hp | hp
            · exact hp
            · exact absurd ⟨h2, hp⟩ h
          have hb : (c != ' ') = true := by simp [bne, h2]
          rw [hb, hp]
          exact ih (i + 1) true n hn

theorem tokenStarts_eq_from (line : List Char) :
    tokenStarts line = tokenStartsFrom line false := by
  unfold tokenStarts tokenStartsFrom
  apply List.filter_congr
  intro j _
  cases j with
  | zero => simp
  | succ k => simp

/-- The extractor with cutoff `n ≥ 1` returns the first `n` token start
offsets. -/
theorem findFieldIndices_eq_take (line : List Char) (n : Nat) (hn : 1 ≤ n) :
    findFieldIndices line n = (tokenStarts line).take n := by
  unfold findFieldIndices
  rw [findFieldIndicesAux_eq_take line 0 false n hn,
    fieldStartsFrom_eq_map line 0 false, tokenStarts_eq_from]
  have : ((· + 0) : Nat → Nat) = id := by funext j; simp
  rw [this, List.map_id]

theorem tokenStarts_sorted (line : List Char) :
    (tokenStarts line).Pairwise (· < ·) :=
  List.Pairwise.sublist (List.filter_sublist _) (List.pairwise_lt_range _)

theorem mem_tokenStarts (line : List Char) (i : Nat) (h : i ∈ tokenStarts line) :
    i < line.length ∧ line.getD i ' ' ≠ ' ' ∧
      (i = 0 ∨ line.getD (i - 1) ' ' = ' ') := by
  unfold tokenStarts at h
  rw [List.mem_filter] at h
  obtain ⟨h1, h2⟩ := h
  refine ⟨List.mem_range.mp h1, ?_⟩
  exact of_decide_eq_true h2

theorem mem_findFieldIndices (line : List Char) (n i : Nat) (hn : 1 ≤ n)
    (h : i ∈ findFieldIndices line n) :
    i < line.length ∧ line.getD i ' ' ≠ ' ' ∧
      (i = 0 ∨ line.getD (i - 1) ' ' = ' ') := by
  rw [findFieldIndices_eq_take line n hn] at h
  exact mem_tokenStarts line i (List.take_subset n _ h)

theorem findFieldIndices_sorted (line : List Char) (n : Nat) (hn : 1 ≤ n) :
    (findFieldIndices line n).Pairwise (· < ·) := by
  rw [findFieldIndices_eq_take line n hn]
  exact List.Pairwise.sublist (List.take_sublist _ _) (tokenStarts_sorted line)

/-! ## Helper lemmas: slices, trimming, index search -/

theorem goSlice?_eq_some {l : List Char} {a b : Nat} (h1 : a ≤ b) (h2 : b ≤ l.length) :
    goSlice? l a b = some ((l.take b).drop a) := by
  unfold goSlice?
  rw [if_pos ⟨h1, h2⟩]

theorem goSliceFrom?_eq_some {l : List Char} {a : Nat} (h : a ≤ l.length) :
    goSliceFrom? l a = some (l.drop a) := by
  unfold goSliceFrom?
  rw [if_pos h]

theorem goSliceFrom?_eq_none {l : List Char} {a : Nat} (h : l.length < a) :
    goSliceFrom? l a = none := by
  unfold goSliceFrom?
  rw [if_neg (by omega)]

theorem slice_single {l : List Char} {i : Nat} (h : i < l.length) :
    (l.take (i + 1)).drop i = [l.getD i ' '] := by
  rw [List.take_succ, List.getElem?_eq_getElem h,
    List.drop_left' (by rw [List.length_take]; omega)]
  simp [List.getD_eq_getElem?_getD, List.getElem?_eq_getElem h]

theorem length_take_drop {l : List Char} {a b : Nat} (hb : b ≤ l.length) :
    ((l.take b).drop a).length = b - a := by
  rw [List.length_drop, List.length_take]
  omega

theorem trimRight_length_le (s : List Char) : (trimRight s).length ≤ s.length := by
  induction s with
  | nil => exact Nat.le_refl _
  | cons c rest ih =>
      unfold trimRight
      by_cases h : trimRight rest = [] ∧ isGoSpace c = true
      · rw [if_pos h]; simp
      · rw [if_neg h]; simpa using ih

theorem length_dropWhile_le' (p : Char → Bool) (s : List Char) :
    (s.dropWhile p).length ≤ s.length := by
  induction s with
  | nil => simp
  | cons c rest ih =>
      rw [List.dropWhile_cons]
      by_cases h : p c = true
      · rw [if_pos h]
        exact Nat.le_trans ih (by simp)
      · rw [if_neg h]

theorem trimSpace_length_le (s : List Char) : (trimSpace s).length ≤ s.length :=
  Nat.le_trans (trimRight_length_le _) (length_dropWhile_le' _ _)

theorem trimRight_eq_take (s : List Char) :
    trimRight s = s.take (trimRight s).length := by
  induction s with
  | nil => rfl
  | cons c rest ih =>
      unfold trimRight
      by_cases h : trimRight rest = [] ∧ isGoSpace c = true
      · rw [if_pos h]; rfl
      · rw [if_neg h]
        simp only [List.length_cons, List.take_succ_cons]
        exact congrArg (c :: ·) ih

/-- When the first character is not white space, trimming removes only a
suffix, so the trimmed text followed by the removed suffix is the original
text. -/
theorem trimSpace_append_drop {s : List Char}
    (h : ∀ c, s.head? = some c → isGoSpace c = false) :
    trimSpace s ++ s.drop (trimSpace s).length = s := by
  have hdw : s.dropWhile isGoSpace = s := by
    cases s with
    | nil => rfl
    | cons c rest =>
        have hc := h c rfl
        rw [List.dropWhile_cons, if_neg (by simp [hc])]
  unfold trimSpace
  rw [hdw]
  nth_rewrite 1 [trimRight_eq_take s]
  exact List.take_append_drop _ _

theorem indexOfChar_lt_length {l : List Char} {c : Char} :
    ∀ {r : Nat}, indexOfChar l c = some r → r < l.length := by
  induction l with
  | nil => intro r h; cases h
  | cons x rest ih =>
      intro r h
      unfold indexOfChar at h
      by_cases hx : x = c
      · rw [if_pos hx] at h
        cases h
        simp
      · rw [if_neg hx] at h
        cases hr : indexOfChar rest c with
        | none => rw [hr] at h; cases h
        | some r2 =>
            rw [hr] at h
            have hr2 := ih hr
            simp only [Option.map_some'] at h
            cases h
            simp only [List.length_cons]
            omega

/-! ## Shape facts for a successfully extracted line -/

/-- When the extractor finds exactly six fields, the six offsets are
strictly increasing, lie inside the line, and point at non-space
characters. -/
theorem shape_facts {line : List Char} {i0 i1 i2 i3 i4 i5 : Nat}
    (h1 : findFieldIndices line 6 = [i0, i1, i2, i3, i4, i5]) :
    i0 < i1 ∧ i1 < i2 ∧ i2 < i3 ∧ i3 < i4 ∧ i4 < i5 ∧ i5 < line.length ∧
      line.getD i4 ' ' ≠ ' ' := by
  have h6 : (1 : Nat) ≤ 6 := by omega
  have hs := findFieldIndices_sorted line 6 h6
  rw [h1] at hs
  simp only [List.pairwise_cons, List.mem_cons, List.mem_singleton,
    List.not_mem_nil, List.Pairwise.nil] at hs
  have hm5 := mem_findFieldIndices line 6 i5 h6 (by rw [h1]; simp)
  have hm4 := mem_findFieldIndices line 6 i4 h6 (by rw [h1]; simp)
  exact ⟨hs.1 i1 (Or.inl rfl), hs.2.1 i2 (Or.inl rfl), hs.2.2.1 i3 (Or.inl rfl),
    hs.2.2.2.1 i4 (Or.inl rfl), hs.2.2.2.2.1 i5 (Or.inl rfl), hm5.1, hm4.2.1⟩

/-! ## Characterization of `printColoredLog` -/

theorem printColoredLog_pass_fewFields {line lastTag : List Char} {lastTime : Int}
    {lastOther : List Char} {opts : LogcatOptions}
    (h : (findFieldIndices line 6).length < 6) :
    printColoredLog line lastTag lastTime lastOther opts =
      some (.passThrough line, (lastTag, lastTime, lastOther)) := by
  unfold printColoredLog
  rw [if_pos h]

theorem printColoredLog_pass_level {line lastTag : List Char} {lastTime : Int}
    {lastOther : List Char} {opts : LogcatOptions} {i0 i1 i2 i3 i4 i5 : Nat}
    (h1 : findFieldIndices line 6 = [i0, i1, i2, i3, i4, i5])
    (h2 : levelRecognized [line.getD i4 ' '] = false) :
    printColoredLog line lastTag lastTime lastOther opts =
      some (.passThrough line, (lastTag, lastTime, lastOther)) := by
  obtain ⟨h01, h12, h23, h34, h45, h5len, -⟩ := shape_facts h1
  unfold printColoredLog
  rw [h1]
  simp only [List.length_cons, List.length_nil, List.getD_cons_succ, List.getD_cons_zero]
  rw [if_neg (by omega),
    goSlice?_eq_some (Nat.le_succ i4) (by omega),
    slice_single (by omega)]
  simp only [h2]
  exact if_pos trivial

theorem printColoredLog_pass_noColon {line lastTag : List Char} {lastTime : Int}
    {lastOther : List Char} {opts : LogcatOptions} {i0 i1 i2 i3 i4 i5 : Nat}
    (h1 : findFieldIndices line 6 = [i0, i1, i2, i3, i4, i5])
    (hlvl : levelRecognized [line.getD i4 ' '] = true)
    (h3 : indexOfChar (line.drop i5) ':' = none) :
    printColoredLog line lastTag lastTime lastOther opts =
      some (.passThrough line, (lastTag, lastTime, lastOther)) := by
  obtain ⟨h01, h12, h23, h34, h45, h5len, -⟩ := shape_facts h1
  unfold printColoredLog
  rw [h1]
  simp only [List.length_cons, List.length_nil, List.getD_cons_succ, List.getD_cons_zero]
  rw [if_neg (by omega),
    goSlice?_eq_some (Nat.le_succ i4) (by omega),
    slice_single (by omega)]
  simp only [hlvl]
  rw [if_neg (by simp)]
  simp only [goSliceFrom?_eq_some (show i5 ≤ line.length by omega), h3]

theorem printColoredLog_pass_badTime {line lastTag : List Char} {lastTime : Int}
    {lastOther : List Char} {opts : LogcatOptions} {i0 i1 i2 i3 i4 i5 rel : Nat}
    (h1 : findFieldIndices line 6 = [i0, i1, i2, i3, i4, i5])
    (hlvl : levelRecognized [line.getD i4 ' '] = true)
    (h3 : indexOfChar (line.drop i5) ':' = some rel)
    (h4 : parseTimestamp line = none) :
    printColoredLog line lastTag lastTime lastOther opts =
      some (.passThrough line, (lastTag, lastTime, lastOther)) := by
  obtain ⟨h01, h12, h23, h34, h45, h5len, -⟩ := shape_facts h1
  have hrel : rel + i5 < line.length := by
    have := indexOfChar_lt_length h3
    rw [List.length_drop] at this
    omega
  have htag : (trimSpace ((line.take (rel + i5)).drop i5)).length ≤ rel := by
    have h := trimSpace_length_le ((line.take (rel + i5)).drop i5)
    rw [length_take_drop (by omega)] at h
    omega
  unfold printColoredLog
  rw [h1]
  simp only [List.length_cons, List.length_nil, List.getD_cons_succ, List.getD_cons_zero]
  rw [if_neg (by omega),
    goSlice?_eq_some (Nat.le_succ i4) (by omega),
    slice_single (by omega)]
  simp only [hlvl]
  rw [if_neg (by simp)]
  simp only [goSliceFrom?_eq_some (show i5 ≤ line.length by omega), h3,
    goSlice?_eq_some (show i5 ≤ rel + i5 by omega) (show rel + i5 ≤ line.length by omega),
    goSlice?_eq_some (show i5 + (trimSpace ((line.take (rel + i5)).drop i5)).length ≤ rel + i5 by omega)
      (show rel + i5 ≤ line.length by omega),
    h4]

theorem printColoredLog_dedup {line lastTag : List Char} {lastTime : Int}
    {lastOther : List Char} {opts : LogcatOptions} {i0 i1 i2 i3 i4 i5 rel : Nat} {t : Int}
    (h1 : findFieldIndices line 6 = [i0, i1, i2, i3, i4, i5])
    (hlvl : levelRecognized [line.getD i4 ' '] = true)
    (h3 : indexOfChar (line.drop i5) ':' = some rel)
    (h4 : parseTimestamp line = some t)
    (hded : lastTag = trimSpace ((line.take (rel + i5)).drop i5))
    (hdel : t - lastTime < opts.maxDelta)
    (hmsg : rel + i5 + 2 ≤ line.length) :
    printColoredLog line lastTag lastTime lastOther opts =
      some (.formatted (padRightTo i4 ('+' :: durationString (t - lastTime)))
              [line.getD i4 ' ']
              (trimSpace ((line.take (rel + i5)).drop i5))
              ((line.take (rel + i5)).drop
                (i5 + (trimSpace ((line.take (rel + i5)).drop i5)).length))
              (line.drop (rel + i5 + 2)),
            (trimSpace ((line.take (rel + i5)).drop i5), lastTime, lastOther)) := by
  obtain ⟨h01, h12, h23, h34, h45, h5len, -⟩ := shape_facts h1
  have hrel : rel + i5 < line.length := by
    have := indexOfChar_lt_length h3
    rw [List.length_drop] at this
    omega
  have htag : (trimSpace ((line.take (rel + i5)).drop i5)).length ≤ rel := by
    have h := trimSpace_length_le ((line.take (rel + i5)).drop i5)
    rw [length_take_drop (by omega)] at h
    omega
  unfold printColoredLog
  rw [h1]
  simp only [List.length_cons, List.length_nil, List.getD_cons_succ, List.getD_cons_zero]
  rw [if_neg (by omega),
    goSlice?_eq_some (Nat.le_succ i4) (by omega),
    slice_single (by omega)]
  simp only [hlvl]
  rw [if_neg (by simp)]
  simp only [goSliceFrom?_eq_some (show i5 ≤ line.length by omega), h3,
    goSlice?_eq_some (show i5 ≤ rel + i5 by omega) (show rel + i5 ≤ line.length by omega),
    goSlice?_eq_some (show i5 + (trimSpace ((line.take (rel + i5)).drop i5)).length ≤ rel + i5 by omega)
      (show rel + i5 ≤ line.length by omega),
    h4,
    goSlice?_eq_some (Nat.zero_le i1) (show i1 ≤ line.length by omega),
    goSlice?_eq_some (show i2 ≤ i4 by omega) (show i4 ≤ line.length by omega)]
  rw [if_pos ⟨hded, hdel⟩]
  simp only [goSliceFrom?_eq_some hmsg]

theorem printColoredLog_noDedup {line lastTag : List Char} {lastTime : Int}
    {lastOther : List Char} {opts : LogcatOptions} {i0 i1 i2 i3 i4 i5 rel : Nat} {t : Int}
    (h1 : findFieldIndices line 6 = [i0, i1, i2, i3, i4, i5])
    (hlvl : levelRecognized [line.getD i4 ' '] = true)
    (h3 : indexOfChar (line.drop i5) ':' = some rel)
    (h4 : parseTimestamp line = some t)
    (hnded : ¬ (lastTag = trimSpace ((line.take (rel + i5)).drop i5) ∧
      t - lastTime < opts.maxDelta))
    (hmsg : rel + i5 + 2 ≤ line.length) :
    printColoredLog line lastTag lastTime lastOther opts =
      some (.formatted (line.take i4)
              [line.getD i4 ' ']
              (trimSpace ((line.take (rel + i5)).drop i5))
              ((line.take (rel + i5)).drop
                (i5 + (trimSpace ((line.take (rel + i5)).drop i5)).length))
              (line.drop (rel + i5 + 2)),
            (trimSpace ((line.take (rel + i5)).drop i5), t,
              line.take i1 ++ (line.take i4).drop i2)) := by
  obtain ⟨h01, h12, h23, h34, h45, h5len, -⟩ := shape_facts h1
  have hrel : rel + i5 < line.length := by
    have := indexOfChar_lt_length h3
    rw [List.length_drop] at this
    omega
  have htag : (trimSpace ((line.take (rel + i5)).drop i5)).length ≤ rel := by
    have h := trimSpace_length_le ((line.take (rel + i5)).drop i5)
    rw [length_take_drop (by omega)] at h
    omega
  unfold printColoredLog
  rw [h1]
  simp only [List.length_cons, List.length_nil, List.getD_cons_succ, List.getD_cons_zero]
  rw [if_neg (by omega),
    goSlice?_eq_some (Nat.le_succ i4) (by omega),
    slice_single (by omega)]
  simp only [hlvl]
  rw [if_neg (by simp)]
  simp only [goSliceFrom?_eq_some (show i5 ≤ line.length by omega), h3,
    goSlice?_eq_some (show i5 ≤ rel + i5 by omega) (show rel + i5 ≤ line.length by omega),
    goSlice?_eq_some (show i5 + (trimSpace ((line.take (rel + i5)).drop i5)).length ≤ rel + i5 by omega)
      (show rel + i5 ≤ line.length by omega),
    h4,
    goSlice?_eq_some (Nat.zero_le i1) (show i1 ≤ line.length by omega),
    goSlice?_eq_some (show i2 ≤ i4 by omega) (show i4 ≤ line.length by omega)]
  rw [if_neg hnded]
  simp only [goSlice?_eq_some (Nat.zero_le i4) (show i4 ≤ line.length by omega),
    goSliceFrom?_eq_some hmsg, List.drop_zero]

theorem printColoredLog_panic {line lastTag : List Char} {lastTime : Int}
    {lastOther : List Char} {opts : LogcatOptions} {i0 i1 i2 i3 i4 i5 rel : Nat} {t : Int}
    (h1 : findFieldIndices line 6 = [i0, i1, i2, i3, i4, i5])
    (hlvl : levelRecognized [line.getD i4 ' '] = true)
    (h3 : indexOfChar (line.drop i5) ':' = some rel)
    (h4 : parseTimestamp line = some t)
    (hpanic : line.length < rel + i5 + 2) :
    printColoredLog line lastTag lastTime lastOther opts = none := by
  obtain ⟨h01, h12, h23, h34, h45, h5len, -⟩ := shape_facts h1
  have hrel : rel + i5 < line.length := by
    have := indexOfChar_lt_length h3
    rw [List.length_drop] at this
    omega
  have htag : (trimSpace ((line.take (rel + i5)).drop i5)).length ≤ rel := by
    have h := trimSpace_length_le ((line.take (rel + i5)).drop i5)
    rw [length_take_drop (by omega)] at h
    omega
  unfold printColoredLog
  rw [h1]
  simp only [List.length_cons, List.length_nil, List.getD_cons_succ, List.getD_cons_zero]
  rw [if_neg (by omega),
    goSlice?_eq_some (Nat.le_succ i4) (by omega),
    slice_single (by omega)]
  simp only [hlvl]
  rw [if_neg (by simp)]
  simp only [goSliceFrom?_eq_some (show i5 ≤ line.length by omega), h3,
    goSlice?_eq_some (show i5 ≤ rel + i5 by omega) (show rel + i5 ≤ line.length by omega),
    goSlice?_eq_some (show i5 + (trimSpace ((line.take (rel + i5)).drop i5)).length ≤ rel + i5 by omega)
      (show rel + i5 ≤ line.length by omega),
    h4,
    goSlice?_eq_some (Nat.zero_le i1) (show i1 ≤ line.length by omega),
    goSlice?_eq_some (show i2 ≤ i4 by omega) (show i4 ≤ line.length by omega),
    goSliceFrom?_eq_none hpanic]
  by_cases hd : lastTag = trimSpace ((line.take (rel + i5)).drop i5) ∧
      t - lastTime < opts.maxDelta
  · rw [if_pos hd]
  · rw [if_neg hd]
    simp only [goSlice?_eq_some (Nat.zero_le i4) (show i4 ≤ line.length by omega)]

/-! ## Further helper lemmas -/

theorem findFieldIndicesAux_inField_nospace (rest : List Char) :
    ∀ (i n : Nat), (∀ c ∈ rest, c ≠ ' ') →
      findFieldIndicesAux rest i true n = [] := by
  induction rest with
  | nil => intro i n _; rfl
  | cons c rest ih =>
      intro i n hns
      unfold findFieldIndicesAux
      rw [if_neg (by simp), if_neg (hns c (List.mem_cons_self c rest))]
      exact ih (i + 1) n fun d hd => hns d (List.mem_cons_of_mem c hd)

theorem list_length_six {l : List Nat} (h : l.length = 6) :
    ∃ a b c d e f, l = [a, b, c, d, e, f] := by
  rcases l with _ | ⟨a, _ | ⟨b, _ | ⟨c, _ | ⟨d, _ | ⟨e, _ | ⟨f, _ | ⟨g, rest⟩⟩⟩⟩⟩⟩⟩
  · simp at h
  · simp at h
  · simp at h
  · simp at h
  · simp at h
  · simp at h
  · exact ⟨a, b, c, d, e, f, rfl⟩
  · simp only [List.length_cons] at h
    omega

theorem findFieldIndices_length_le (line : List Char) :
    (findFieldIndices line 6).length ≤ 6 := by
  rw [findFieldIndices_eq_take line 6 (by omega), List.length_take]
  omega

theorem levelRecognized_eq_false {s : List Char}
    (h : ¬ levelRecognized s = true) : levelRecognized s = false := by
  revert h
  cases levelRecognized s <;> simp

/-! ## The claims -/

/-- Claim C1: for every successfully parsed line whose tag equals the prior
state lastTag and whose delta (current timestamp minus state lastTimestamp)
is strictly below the configured max-delta threshold, the emitted metadata
prefix is the string "+" followed by the rendered delta, right-padded to
the character width of the metadata column (the text of the line before
the level character), and it starts with the character '+'. -/
theorem dedup_metadata_plus_padded
    (line lastTag : List Char) (lastTime : Int) (lastOther : List Char)
    (opts : LogcatOptions) (i0 i1 i2 i3 i4 i5 rel : Nat) (t : Int)
    (h1 : findFieldIndices line 6 = [i0, i1, i2, i3, i4, i5])
    (hlvl : levelRecognized [line.getD i4 ' '] = true)
    (h3 : indexOfChar (line.drop i5) ':' = some rel)
    (h4 : parseTimestamp line = some t)
    (hded : lastTag = trimSpace ((line.take (rel + i5)).drop i5))
    (hdel : t - lastTime < opts.maxDelta)
    (hmsg : rel + i5 + 2 ≤ line.length) :
    printColoredLog line lastTag lastTime lastOther opts =
      some (.formatted
              (padRightTo (line.take i4).length ('+' :: durationString (t - lastTime)))
              [line.getD i4 ' '] lastTag
              ((line.take (rel + i5)).drop (i5 + lastTag.length))
              (line.drop (rel + i5 + 2)),
            (lastTag, lastTime, lastOther)) ∧
    (padRightTo (line.take i4).length
      ('+' :: durationString (t - lastTime))).headD ' ' = '+' := by
  have hi4 : i4 < line.length := by
    obtain ⟨-, -, -, -, h45, h5len, -⟩ := shape_facts h1
    omega
  have hlen : (line.take i4).length = i4 := by
    rw [List.length_take]
    omega
  constructor
  · rw [hlen, hded]
    exact printColoredLog_dedup h1 hlvl h3 h4 rfl hdel hmsg
  · simp [padRightTo]

/-- Witness for C1 at a concrete second line with delta 0. -/
theorem dedup_metadata_plus_padded_witness :
    printColoredLog sampleLine "a".toList 9488058813000000 [] defaultOpts =
      some (.formatted
              (padRightTo (sampleLine.take 23).length ('+' :: durationString (9488058813000000 - 9488058813000000)))
              [sampleLine.getD 23 ' '] "a".toList
              ((sampleLine.take (1 + 25)).drop (25 + ("a".toList).length))
              (sampleLine.drop (1 + 25 + 2)),
            ("a".toList, 9488058813000000, [])) ∧
    (padRightTo (sampleLine.take 23).length
      ('+' :: durationString (9488058813000000 - 9488058813000000))).headD ' ' = '+' :=
  dedup_metadata_plus_padded sampleLine "a".toList 9488058813000000 [] defaultOpts
    0 6 19 21 23 25 1 9488058813000000
    (by decide) (by decide) (by decide) (by decide) (by decide) (by decide) (by decide)

/-- Claim C3 (refuted by the code): processing a well-formed line whose tag
colon is the final character panics in Go (the message slice
`line[colonIndex+2:]` has its lower bound one past the end of the string),
modelled here by the renderer returning `none`. -/
theorem message_slice_panics_on_trailing_colon :
    printColoredLog colonEndLine [] zeroTime [] defaultOpts = none := by decide

/-- Claim C4: a line with fewer than six extracted field offsets is passed
through verbatim with the state unchanged. -/
theorem passThrough_of_few_fields
    (line lastTag : List Char) (lastTime : Int) (lastOther : List Char)
    (opts : LogcatOptions)
    (h : (findFieldIndices line 6).length < 6) :
    printColoredLog line lastTag lastTime lastOther opts =
      some (.passThrough line, (lastTag, lastTime, lastOther)) ∧
    renderPlain (RenderOutput.passThrough line) = line :=
  ⟨printColoredLog_pass_fewFields h, rfl⟩

/-- Witness for C4 on a line with a single field. -/
theorem passThrough_of_few_fields_witness :
    printColoredLog "hello".toList "x".toList 5 "y".toList defaultOpts =
      some (.passThrough "hello".toList, ("x".toList, 5, "y".toList)) ∧
    renderPlain (RenderOutput.passThrough "hello".toList) = "hello".toList :=
  passThrough_of_few_fields "hello".toList "x".toList 5 "y".toList defaultOpts (by decide)

/-- Claim C7 (refuted as stated): with a maximum field count of zero the
extractor still returns the offset of the first token, not an empty list
(the cutoff is only checked after an offset has been appended). -/
theorem extractor_zero_max_counterexample :
    findFieldIndices ['a'] 0 = [0] ∧ (tokenStarts ['a']).take 0 = [] ∧
      findFieldIndices ['a'] 0 ≠ (tokenStarts ['a']).take 0 := by decide

/-- Claim C7 (amended): for every maximum field count of at least one, the
extractor returns the starting offsets of the first `n` space-delimited
tokens in left-to-right order, one offset per token present when fewer
than `n` exist, and every returned offset points at a non-space character
that begins a token. -/
theorem extractor_returns_token_offsets (line : List Char) (n : Nat) (hn : 1 ≤ n) :
    findFieldIndices line n = (tokenStarts line).take n ∧
    ∀ i ∈ findFieldIndices line n, i < line.length ∧ line.getD i ' ' ≠ ' ' ∧
      (i = 0 ∨ line.getD (i - 1) ' ' = ' ') :=
  ⟨findFieldIndices_eq_take line n hn,
    fun i hi => mem_findFieldIndices line n i hn hi⟩

/-- Witness for the amended C7 on a two-token line. -/
theorem extractor_returns_token_offsets_witness :
    findFieldIndices "ab cd".toList 6 = (tokenStarts "ab cd".toList).take 6 ∧
    ∀ i ∈ findFieldIndices "ab cd".toList 6, i < ("ab cd".toList).length ∧
      ("ab cd".toList).getD i ' ' ≠ ' ' ∧
      (i = 0 ∨ ("ab cd".toList).getD (i - 1) ' ' = ' ') :=
  extractor_returns_token_offsets "ab cd".toList 6 (by decide)

/-- Claim C9: the renderer reads no option other than the max-delta
threshold, so two option records agreeing on max-delta produce the same
output and the same state on every input. -/
theorem output_depends_only_on_maxDelta
    (line lastTag : List Char) (lastTime : Int) (lastOther : List Char)
    (o1 o2 : LogcatOptions) (h : o1.maxDelta = o2.maxDelta) :
    printColoredLog line lastTag lastTime lastOther o1 =
      printColoredLog line lastTag lastTime lastOther o2 := by
  unfold printColoredLog
  rw [h]

/-- Witness for C9: option records that differ in filters, tag, level,
device and keep-going give identical results. -/
theorem output_depends_only_on_maxDelta_witness :
    printColoredLog sampleLine [] zeroTime [] altOpts =
      printColoredLog sampleLine [] zeroTime [] defaultOpts :=
  output_depends_only_on_maxDelta sampleLine [] zeroTime [] altOpts defaultOpts rfl

/-- Claim C10: only the ASCII space character separates fields, so a
nonempty line containing no space yields exactly one field offset, the
offset zero (even when its characters are tabs or other whitespace). -/
theorem space_is_only_separator (line : List Char) (n : Nat) (_hn : 1 ≤ n)
    (hnosp : ' ' ∉ line) (hne : line ≠ []) :
    findFieldIndices line n = [0] := by
  cases line with
  | nil => exact absurd rfl hne
  | cons c rest =>
      have hc : c ≠ ' ' := fun h => hnosp (h ▸ List.mem_cons_self c rest)
      unfold findFieldIndices findFieldIndicesAux
      rw [if_pos ⟨hc, rfl⟩]
      by_cases h1 : n ≤ 1
      · rw [if_pos h1]
      · rw [if_neg h1,
          findFieldIndicesAux_inField_nospace rest 1 (n - 1)
            (fun d hd he => hnosp (he ▸ List.mem_cons_of_mem c hd))]

/-- Witness for C10: a line whose two tokens are separated only by a tab
yields the single offset zero. -/
theorem space_is_only_separator_witness :
    findFieldIndices "a\tb".toList 6 = [0] :=
  space_is_only_separator "a\tb".toList 6 (by decide) (by decide) (by decide)

/-- Claim C5: with six extracted fields, an unrecognized level character,
a missing colon after the tag offset, or a timestamp parse failure each
produce a verbatim pass-through with the state unchanged. -/
theorem passThrough_of_parse_failures
    (line lastTag : List Char) (lastTime : Int) (lastOther : List Char)
    (opts : LogcatOptions) (i0 i1 i2 i3 i4 i5 : Nat)
    (h1 : findFieldIndices line 6 = [i0, i1, i2, i3, i4, i5])
    (hfail : levelRecognized [line.getD i4 ' '] = false ∨
      indexOfChar (line.drop i5) ':' = none ∨ parseTimestamp line = none) :
    printColoredLog line lastTag lastTime lastOther opts =
      some (.passThrough line, (lastTag, lastTime, lastOther)) ∧
    renderPlain (RenderOutput.passThrough line) = line := by
  refine ⟨?_, rfl⟩
  rcases hfail with hf | hf | hf
  · exact printColoredLog_pass_level h1 hf
  · by_cases hlvl : levelRecognized [line.getD i4 ' '] = true
    · exact printColoredLog_pass_noColon h1 hlvl hf
    · exact printColoredLog_pass_level h1 (levelRecognized_eq_false hlvl)
  · by_cases hlvl : levelRecognized [line.getD i4 ' '] = true
    · cases hcolon : indexOfChar (line.drop i5) ':' with
      | none => exact printColoredLog_pass_noColon h1 hlvl hcolon
      | some rel => exact printColoredLog_pass_badTime h1 hlvl hcolon hf
    · exact printColoredLog_pass_level h1 (levelRecognized_eq_false hlvl)

/-- Witness for C5 on a line with level character X. -/
theorem passThrough_of_parse_failures_witness :
    printColoredLog badLevelLine [] zeroTime [] defaultOpts =
      some (.passThrough badLevelLine, ([], zeroTime, [])) ∧
    renderPlain (RenderOutput.passThrough badLevelLine) = badLevelLine :=
  passThrough_of_parse_failures badLevelLine [] zeroTime [] defaultOpts
    0 6 19 21 23 25 (by decide) (Or.inl (by decide))

/-- Claim C6 (refuted as stated): on a line whose tag field begins with a
tab, the emitted tag and tag padding concatenate to "XX", not to the
original text between the tag offset and the colon (which is a tab
followed by X), because `strings.TrimSpace` also removes the leading tab
while the padding is still cut as if only trailing characters had been
trimmed. -/
theorem tag_roundtrip_counterexample :
    printColoredLog tabTagLine [] zeroTime [] defaultOpts =
      some (.formatted "04-19 19:34:18.813 1 2 ".toList ['I'] "X".toList
              "X".toList "m".toList,
            ("X".toList, 9488058813000000, "04-19 1 2 ".toList)) ∧
    "X".toList ++ "X".toList ≠ (tabTagLine.take (2 + 25)).drop 25 := by
  refine ⟨by decide, by decide⟩

/-- Claim C6 (amended): for every line that parses past the tag step and
whose character at the tag offset is not whitespace (so that trimming
removes only trailing characters), concatenating the emitted tag and tag
padding recovers exactly the original whitespace-inclusive text between
the tag offset and the colon. -/
theorem tag_roundtrip_of_nonspace_start
    (line lastTag : List Char) (lastTime : Int) (lastOther : List Char)
    (opts : LogcatOptions) (i0 i1 i2 i3 i4 i5 rel : Nat)
    (md lv tg sp msg : List Char) (st : List Char × Int × List Char)
    (h1 : findFieldIndices line 6 = [i0, i1, i2, i3, i4, i5])
    (h3 : indexOfChar (line.drop i5) ':' = some rel)
    (hhead : isGoSpace (line.getD i5 ' ') = false)
    (h : printColoredLog line lastTag lastTime lastOther opts =
      some (.formatted md lv tg sp msg, st)) :
    tg ++ sp = (line.take (rel + i5)).drop i5 := by
  obtain ⟨h01, h12, h23, h34, h45, h5len, -⟩ := shape_facts h1
  have hrel : rel + i5 < line.length := by
    have := indexOfChar_lt_length h3
    rw [List.length_drop] at this
    omega
  have key : trimSpace ((line.take (rel + i5)).drop i5) ++
      (line.take (rel + i5)).drop
        (i5 + (trimSpace ((line.take (rel + i5)).drop i5)).length) =
      (line.take (rel + i5)).drop i5 := by
    rw [← List.drop_drop]
    apply trimSpace_append_drop
    intro c hc
    rcases Nat.eq_zero_or_pos rel with hr0 | hrpos
    · subst hr0
      rw [show (line.take (0 + i5)).drop i5 = ([] : List Char) from
          List.eq_nil_of_length_eq_zero (by rw [length_take_drop (by omega)]; omega)] at hc
      cases hc
    · rw [List.head?_drop, List.getElem?_take_of_lt (by omega)] at hc
      have hgd : line.getD i5 ' ' = c := by
        rw [List.getD_eq_getElem?_getD, hc]
        rfl
      rw [← hgd]
      exact hhead
  by_cases hlvl : levelRecognized [line.getD i4 ' '] = true
  · cases hts : parseTimestamp line with
    | none =>
        rw [printColoredLog_pass_badTime h1 hlvl h3 hts] at h
        simp at h
    | some t =>
        by_cases hb : rel + i5 + 2 ≤ line.length
        · by_cases hd : lastTag = trimSpace ((line.take (rel + i5)).drop i5) ∧
              t - lastTime < opts.maxDelta
          · rw [printColoredLog_dedup h1 hlvl h3 hts hd.1 hd.2 hb] at h
            simp only [Option.some.injEq, Prod.mk.injEq,
              RenderOutput.formatted.injEq] at h
            obtain ⟨⟨-, -, htg, hsp, -⟩, -⟩ := h
            rw [← htg, ← hsp]
            exact key
          · rw [printColoredLog_noDedup h1 hlvl h3 hts hd hb] at h
            simp only [Option.some.injEq, Prod.mk.injEq,
              RenderOutput.formatted.injEq] at h
            obtain ⟨⟨-, -, htg, hsp, -⟩, -⟩ := h
            rw [← htg, ← hsp]
            exact key
        · rw [printColoredLog_panic h1 hlvl h3 hts (by omega)] at h
          cases h
  · rw [printColoredLog_pass_level h1 (levelRecognized_eq_false hlvl)] at h
    simp at h

/-- Witness for the amended C6 on the minimal sample line. -/
theorem tag_roundtrip_of_nonspace_start_witness :
    "a".toList ++ ([] : List Char) = (sampleLine.take (1 + 25)).drop 25 :=
  tag_roundtrip_of_nonspace_start sampleLine [] zeroTime [] defaultOpts
    0 6 19 21 23 25 1
    "04-19 19:34:18.813 1 2 ".toList ['I'] "a".toList [] "m".toList
    ("a".toList, 9488058813000000, "04-19 1 2 ".toList)
    (by decide) (by decide) (by decide) (by decide)

theorem state_unchanged_on_pass
    (line lastTag : List Char) (lastTime : Int) (lastOther : List Char)
    (opts : LogcatOptions) (out : RenderOutput) (tag' : List Char)
    (time' : Int) (other' : List Char)
    (h : printColoredLog line lastTag lastTime lastOther opts =
      some (out, (tag', time', other')))
    (hout : out = .passThrough line) :
    tag' = lastTag ∧ time' = lastTime ∧ other' = lastOther := by
  by_cases hf : (findFieldIndices line 6).length < 6
  · rw [printColoredLog_pass_fewFields hf] at h
    simp only [Option.some.injEq, Prod.mk.injEq] at h
    exact ⟨h.2.1.symm, h.2.2.1.symm, h.2.2.2.symm⟩
  · have hlen6 : (findFieldIndices line 6).length = 6 := by
      have := findFieldIndices_length_le line
      omega
    obtain ⟨i0, i1, i2, i3, i4, i5, hfi⟩ := list_length_six hlen6
    by_cases hlvl : levelRecognized [line.getD i4 ' '] = true
    · cases hcolon : indexOfChar (line.drop i5) ':' with
      | none =>
          rw [printColoredLog_pass_noColon hfi hlvl hcolon] at h
          simp only [Option.some.injEq, Prod.mk.injEq] at h
          exact ⟨h.2.1.symm, h.2.2.1.symm, h.2.2.2.symm⟩
      | some rel =>
          cases hts : parseTimestamp line with
          | none =>
              rw [printColoredLog_pass_badTime hfi hlvl hcolon hts] at h
              simp only [Option.some.injEq, Prod.mk.injEq] at h
              exact ⟨h.2.1.symm, h.2.2.1.symm, h.2.2.2.symm⟩
          | some t =>
              by_cases hb : rel + i5 + 2 ≤ line.length
              · subst hout
                by_cases hd : lastTag = trimSpace ((line.take (rel + i5)).drop i5) ∧
                    t - lastTime < opts.maxDelta
                · rw [printColoredLog_dedup hfi hlvl hcolon hts hd.1 hd.2 hb] at h
                  simp at h
                · rw [printColoredLog_noDedup hfi hlvl hcolon hts hd hb] at h
                  simp at h
              · rw [printColoredLog_panic hfi hlvl hcolon hts (by omega)] at h
                cases h
    · rw [printColoredLog_pass_level hfi (levelRecognized_eq_false hlvl)] at h
      simp only [Option.some.injEq, Prod.mk.injEq] at h
      exact ⟨h.2.1.symm, h.2.2.1.symm, h.2.2.2.symm⟩

theorem state_update_on_success
    (line lastTag : List Char) (lastTime : Int) (lastOther : List Char)
    (opts : LogcatOptions) (i0 i1 i2 i3 i4 i5 rel : Nat) (t : Int)
    (out : RenderOutput) (tag' : List Char) (time' : Int) (other' : List Char)
    (h1 : findFieldIndices line 6 = [i0, i1, i2, i3, i4, i5])
    (h3 : indexOfChar (line.drop i5) ':' = some rel)
    (h4 : parseTimestamp line = some t)
    (h : printColoredLog line lastTag lastTime lastOther opts =
      some (out, (tag', time', other')))
    (hout : out ≠ .passThrough line) :
    tag' = trimSpace ((line.take (rel + i5)).drop i5) ∧
    (lastTag = trimSpace ((line.take (rel + i5)).drop i5) ∧
        t - lastTime < opts.maxDelta →
      time' = lastTime ∧ other' = lastOther) ∧
    (¬ (lastTag = trimSpace ((line.take (rel + i5)).drop i5) ∧
        t - lastTime < opts.maxDelta) →
      time' = t ∧ other' = line.take i1 ++ (line.take i4).drop i2) := by
  by_cases hlvl : levelRecognized [line.getD i4 ' '] = true
  · by_cases hb : rel + i5 + 2 ≤ line.length
    · by_cases hd : lastTag = trimSpace ((line.take (rel + i5)).drop i5) ∧
          t - lastTime < opts.maxDelta
      · rw [printColoredLog_dedup h1 hlvl h3 h4 hd.1 hd.2 hb] at h
        simp only [Option.some.injEq, Prod.mk.injEq] at h
        exact ⟨h.2.1.symm, fun _ => ⟨h.2.2.1.symm, h.2.2.2.symm⟩,
          fun hc => absurd hd hc⟩
      · rw [printColoredLog_noDedup h1 hlvl h3 h4 hd hb] at h
        simp only [Option.some.injEq, Prod.mk.injEq] at h
        exact ⟨h.2.1.symm, fun hc => absurd hc hd,
          fun _ => ⟨h.2.2.1.symm, h.2.2.2.symm⟩⟩
    · rw [printColoredLog_panic h1 hlvl h3 h4 (by omega)] at h
      cases h
  · rw [printColoredLog_pass_level h1 (levelRecognized_eq_false hlvl)] at h
    simp only [Option.some.injEq, Prod.mk.injEq] at h
    exact absurd h.1.symm hout

/-- Claim C2: whenever the renderer returns, the returned lastTag is the
newly parsed tag on every successful parse (and the old one on a
pass-through); under the deduplication condition the returned
lastTimestamp and lastOther are the prior values, otherwise they are the
newly parsed timestamp and the newly computed other text; and on every
pass-through all three state components are unchanged. -/
theorem state_update_rule :
    (∀ (line lastTag : List Char) (lastTime : Int) (lastOther : List Char)
       (opts : LogcatOptions) (out : RenderOutput) (tag' : List Char)
       (time' : Int) (other' : List Char),
      printColoredLog line lastTag lastTime lastOther opts =
        some (out, (tag', time', other')) →
      out = .passThrough line →
      tag' = lastTag ∧ time' = lastTime ∧ other' = lastOther) ∧
    (∀ (line lastTag : List Char) (lastTime : Int) (lastOther : List Char)
       (opts : LogcatOptions) (i0 i1 i2 i3 i4 i5 rel : Nat) (t : Int)
       (out : RenderOutput) (tag' : List Char) (time' : Int) (other' : List Char),
      findFieldIndices line 6 = [i0, i1, i2, i3, i4, i5] →
      indexOfChar (line.drop i5) ':' = some rel →
      parseTimestamp line = some t →
      printColoredLog line lastTag lastTime lastOther opts =
        some (out, (tag', time', other')) →
      out ≠ .passThrough line →
      tag' = trimSpace ((line.take (rel + i5)).drop i5) ∧
      (lastTag = trimSpace ((line.take (rel + i5)).drop i5) ∧
          t - lastTime < opts.maxDelta →
        time' = lastTime ∧ other' = lastOther) ∧
      (¬ (lastTag = trimSpace ((line.take (rel + i5)).drop i5) ∧
          t - lastTime < opts.maxDelta) →
        time' = t ∧ other' = line.take i1 ++ (line.take i4).drop i2)) :=
  ⟨fun line lastTag lastTime lastOther opts out tag' time' other' h hout =>
    state_unchanged_on_pass line lastTag lastTime lastOther opts out
      tag' time' other' h hout,
   fun line lastTag lastTime lastOther opts i0 i1 i2 i3 i4 i5 rel t out
       tag' time' other' h1 h3 h4 h hout =>
    state_update_on_success line lastTag lastTime lastOther opts
      i0 i1 i2 i3 i4 i5 rel t out tag' time' other' h1 h3 h4 h hout⟩

/-- Witness for C2: a pass-through instance and a successful non-dedup
instance, both at concrete inputs. -/
theorem state_update_rule_witness :
    ("x".toList = "x".toList ∧ (5 : Int) = 5 ∧ "y".toList = "y".toList) ∧
    ("a".toList = trimSpace ((sampleLine.take (1 + 25)).drop 25) ∧
      (([] : List Char) = trimSpace ((sampleLine.take (1 + 25)).drop 25) ∧
          9488058813000000 - zeroTime < defaultOpts.maxDelta →
        (9488058813000000 : Int) = zeroTime ∧
          "04-19 1 2 ".toList = ([] : List Char)) ∧
      (¬ (([] : List Char) = trimSpace ((sampleLine.take (1 + 25)).drop 25) ∧
          9488058813000000 - zeroTime < defaultOpts.maxDelta) →
        (9488058813000000 : Int) = 9488058813000000 ∧
          "04-19 1 2 ".toList = sampleLine.take 6 ++ (sampleLine.take 23).drop 19)) :=
  ⟨state_update_rule.1 "hello".toList "x".toList 5 "y".toList defaultOpts
      (.passThrough "hello".toList) "x".toList 5 "y".toList (by decide) rfl,
   state_update_rule.2 sampleLine [] zeroTime [] defaultOpts 0 6 19 21 23 25 1
      9488058813000000
      (.formatted "04-19 19:34:18.813 1 2 ".toList ['I'] "a".toList [] "m".toList)
      "a".toList 9488058813000000 "04-19 1 2 ".toList
      (by decide) (by decide) (by decide) (by decide) (by decide)⟩

/-- Claim C8: the concrete example of the specification.  The first line,
processed from the empty session state, returns lastTag "artd" and emits
its raw 31-character metadata column; the line one millisecond later with
the same tag, under the default 10-second threshold, emits metadata that
starts with "+1ms" and is padded to the same 31-character width. -/
theorem artd_example_session :
    printColoredLog artdLine1 [] zeroTime [] defaultOpts =
      some (.formatted "04-19 19:34:18.813  5587  5708 ".toList ['I']
              "artd".toList "    ".toList
              "GetBestInfo no usable artifacts".toList,
            ("artd".toList, 9488058813000000, "04-19 5587  5708 ".toList)) ∧
    printColoredLog artdLine2 "artd".toList 9488058813000000
        "04-19 5587  5708 ".toList defaultOpts =
      some (.formatted ("+1ms".toList ++ List.replicate 27 ' ') ['I']
              "artd".toList "    ".toList
              "GetBestInfo no usable artifacts".toList,
            ("artd".toList, 9488058813000000, "04-19 5587  5708 ".toList)) ∧
    ("04-19 19:34:18.813  5587  5708 ".toList).length = 31 ∧
    ("+1ms".toList ++ List.replicate 27 ' ').take 4 = "+1ms".toList ∧
    ("+1ms".toList ++ List.replicate 27 ' ').length = 31 := by
  exact ⟨by decide, by decide, by decide, by decide, by decide⟩

end Logcatcolor
